import Mathlib

/-!
Verification of the lambda-s3-resizer worker (src/s3_resize_images.py).

Keys, tags and message strings are modelled as lists of characters
(`Str`), the object store as an association list from (bucket, key)
pairs to objects, and the external S3 calls as pure state transitions.
Transient store and codec failures are injected through an explicit
`Faults` record; the random lock token and the clock are supplied
through a `Ctx` record, since the worker only threads them through.
-/

abbrev Str := List Char

/-- Characters of the reversed path up to (excluding) the first slash;
used to compute the final path component, as os.path.basename does. -/
def dropDir : Str → Str
  | [] => []
  | c :: cs => if c = '/' then [] else c :: dropDir cs

/-- Characters of the reversed path from the first slash on; the
complement of `dropDir`. -/
def dropKeep : Str → Str
  | [] => []
  | c :: cs => if c = '/' then c :: cs else dropKeep cs

/-- os.path.basename: the part of the key after the last slash. -/
def basename (p : Str) : Str :=
  (dropDir p.reverse).reverse

/-- The complement of `basename`: everything up to and including the
last slash. -/
def dirname (p : Str) : Str :=
  (dropKeep p.reverse).reverse

/-- Splits a list at its LAST dot: returns the part before the last
dot and the suffix starting at the last dot; none when no dot occurs. -/
def lastDotSplit : Str → Option (Str × Str)
  | [] => none
  | c :: cs =>
    match lastDotSplit cs with
    | some (b, e) => some (c :: b, e)
    | none => if c = '.' then some ([], '.' :: cs) else none

/-- os.path.splitext: splits off the extension at the last dot of the
last path component, unless that component consists of leading dots
only up to that dot (so dotfiles such as .bashrc have no extension). -/
def splitext (p : Str) : Str × Str :=
  match lastDotSplit (basename p) with
  | none => (p, [])
  | some (b, e) => if b.all (fun c => c == '.') then (p, []) else (dirname p ++ b, e)

/-- Configuration: the output key prefix.  The source sets it to the
empty string. -/
def RESIZED_PREFIX : Str := []

/-- Configuration: the completion tag key. -/
def PROCESSED_TAG : Str := "processed".toList

/-- Configuration: the lock tag key. -/
def PROCESSING_TAG : Str := "processing".toList

/-- Configuration: the allow-list of image extensions. -/
def SUPPORTED_FORMATS : List Str :=
  [ ".jpg".toList, ".jpeg".toList, ".png".toList, ".bmp".toList,
    ".gif".toList, ".tiff".toList, ".webp".toList]

/-- is_image_file: rejects the empty key, rejects keys starting with
the resized prefix, and otherwise tests the lower-cased extension
against the allow-list. -/
def is_image_file (key : Str) : Bool :=
  if key = [] then false
  else if List.isPrefixOf RESIZED_PREFIX key then false
  else SUPPORTED_FORMATS.contains (splitext (key.map Char.toLower)).2

/-- generate_resized_key: basename, split extension, insert the
_resized suffix before the extension, prepend the resized prefix. -/
def generate_resized_key (original_key : Str) : Str :=
  let filename := basename original_key
  let ne := splitext filename
  RESIZED_PREFIX ++ ne.1 ++ "_resized".toList ++ ne.2

/-- An object in the store: opaque body bytes, a tag set and a
metadata map (both association lists, later entries shadowing earlier
ones as in a Python dict built left to right). -/
structure Obj where
  body : Str
  tags : List (Str × Str)
  metadata : List (Str × Str)
deriving DecidableEq

/-- The shared object store: an association list from (bucket, key) to
objects; newest binding first. -/
abbrev Store := List ((Str × Str) × Obj)

/-- Looks up the object stored under (bucket b, key k); the newest
binding wins. -/
def storeGet : Store → Str → Str → Option Obj
  | [], _, _ => none
  | (bk, o) :: rest, b, k =>
    if bk.1 = b ∧ bk.2 = k then some o else storeGet rest b k

/-- put_object / upload_file: (over)writes the object at (b, k). -/
def storePut (s : Store) (b k : Str) (o : Obj) : Store :=
  ((b, k), o) :: s

/-- delete_object: removes every binding for (b, k); deleting an
absent key is a no-op. -/
def storeDelete : Store → Str → Str → Store
  | [], _, _ => []
  | (bk, o) :: rest, b, k =>
    if bk.1 = b ∧ bk.2 = k then storeDelete rest b k
    else (bk, o) :: storeDelete rest b k

/-- Python dict lookup over an association list built left to right:
the LAST binding for the key wins (later entries overwrite earlier
ones, as in the tag-set dict comprehension). -/
def dictGet : List (Str × Str) → Str → Option Str
  | [], _ => none
  | (k, v) :: rest, q =>
    match dictGet rest q with
    | some v2 => some v2
    | none => if k = q then some v else none

/-- Injected transient failures of the external calls: head/put during
lock acquisition, head/tagging during the completion check, the input
download, the codec, and the output upload.  A set flag makes the
corresponding call raise instead of succeeding. -/
structure Faults where
  head_lock_err : Bool
  put_lock_err : Bool
  head_out_err : Bool
  tag_err : Bool
  download_err : Bool
  codec_err : Bool
  upload_err : Bool
deriving DecidableEq

/-- Per-invocation environment: the generated uuid4 lock token, the
utcnow().isoformat() string, the integer time.time() clock, and the
injected faults. -/
structure Ctx where
  lock_id : Str
  created_at : Str
  now : Nat
  faults : Faults
deriving DecidableEq

/-- The lock key derived from a resized key: f-string
resized_key + .processing_lock. -/
def lock_key_of (resized_key : Str) : Str :=
  resized_key ++ ".processing_lock".toList

/-- The Lock Object written by try_acquire_processing_lock: body is
the token, one processing tag, and lock-id / created-at / expires-at
metadata (expiry is now + 300 seconds, advisory only). -/
def lock_object (ctx : Ctx) : Obj :=
  { body := ctx.lock_id
    tags := [(PROCESSING_TAG, ctx.lock_id)]
    metadata :=
      [( "lock-id".toList, ctx.lock_id),
       ( "created-at".toList, ctx.created_at),
       ( "expires-at".toList, (toString (ctx.now + 300)).toList)] }

/-- try_acquire_processing_lock: head_object on the lock key (a
transient error there is caught by the outer handler and yields
False); if the lock exists, False; then put_object of the lock object
(a failing put is caught and yields False); on success True.  The
store state is returned alongside. -/
def try_acquire_processing_lock (ctx : Ctx) (s : Store) (bucket_name resized_key : Str) :
    Bool × Store :=
  let lock_key := lock_key_of resized_key
  if ctx.faults.head_lock_err then (false, s)
  else if (storeGet s bucket_name lock_key).isSome then (false, s)
  else if ctx.faults.put_lock_err then (false, s)
  else (true, storePut s bucket_name lock_key (lock_object ctx))

/-- release_processing_lock: delete_object on the lock key; any error
is swallowed. -/
def release_processing_lock (s : Store) (bucket_name resized_key : Str) : Store :=
  storeDelete s bucket_name (lock_key_of resized_key)

/-- is_resized_image_completed: head_object on the resized key (absent
key or a transient error yields False through the except arms), then
get_object_tagging (a transient error yields False), and finally the
processed tag must equal true. -/
def is_resized_image_completed (ctx : Ctx) (s : Store) (bucket_name resized_key : Str) :
    Bool :=
  if ctx.faults.head_out_err then false
  else
    match storeGet s bucket_name resized_key with
    | none => false
    | some o =>
      if ctx.faults.tag_err then false
      else if dictGet o.tags PROCESSED_TAG = some ( "true".toList) then true
      else false

/-- The Output Object published on success: opaque resized bytes, the
processed=true completion tag, and the descriptive metadata written by
upload_resized_image_atomically (the pixel content itself is produced
by the external codec and is abstracted). -/
def resized_object (ctx : Ctx) (original_key : Str) : Obj :=
  { body := "resized-bytes".toList
    tags := [(PROCESSED_TAG, "true".toList)]
    metadata :=
      [( "original-key".toList, original_key),
       ( "processed-at".toList, ctx.created_at),
       ( "resize-dimensions".toList, "1280x1280".toList),
       ( "processor".toList, "lambda-image-resizer".toList)] }

/-- upload_resized_image_atomically: upload_file with tag and
metadata, then release the lock; on upload failure the lock is also
released and the error re-raised (returned as some message). -/
def upload_resized_image_atomically (ctx : Ctx) (s : Store)
    (bucket_name resized_key original_key : Str) : Option Str × Store :=
  if ctx.faults.upload_err then
    (some ( "upload failed".toList), release_processing_lock s bucket_name resized_key)
  else
    (none,
     release_processing_lock (storePut s bucket_name resized_key (resized_object ctx original_key))
       bucket_name resized_key)

/-- Outcome dictionaries returned by process_s3_record: a skip with a
reason, or a success carrying the original and resized keys. -/
inductive Outcome where
  | skipped (reason : Str) (key : Str)
  | success (original_key : Str) (resized_key : Str)
deriving DecidableEq

/-- Result of one process_s3_record call: a returned outcome or a
raised exception message. -/
inductive PResult where
  | ok (o : Outcome)
  | error (msg : Str)
deriving DecidableEq

/-- The body of process_s3_record after the is_image_file gate (source
lines 94-146): derive the resized key, try to acquire the lock (denial
is a skip), re-check completion (a skip that returns while still
holding the lock), then download, transcode and publish, releasing the
lock on every raising path. -/
def process_eligible_record (ctx : Ctx) (s : Store) (bucket_name object_key : Str) :
    PResult × Store :=
  let resized_key := generate_resized_key object_key
  let acq := try_acquire_processing_lock ctx s bucket_name resized_key
  let s1 := acq.2
  if acq.1 = false then
    (PResult.ok (Outcome.skipped ( "Already being processed or completed".toList) object_key), s1)
  else if is_resized_image_completed ctx s1 bucket_name resized_key then
    (PResult.ok (Outcome.skipped ( "Already completed".toList) object_key), s1)
  else
    match storeGet s1 bucket_name object_key with
    | none =>
      (PResult.error ( "download failed".toList),
       release_processing_lock s1 bucket_name resized_key)
    | some _ =>
      if ctx.faults.download_err then
        (PResult.error ( "download failed".toList),
         release_processing_lock s1 bucket_name resized_key)
      else if ctx.faults.codec_err then
        (PResult.error ( "thumbnail generation failed".toList),
         release_processing_lock s1 bucket_name resized_key)
      else
        let up := upload_resized_image_atomically ctx s1 bucket_name resized_key object_key
        match up.1 with
        | some e => (PResult.error e, release_processing_lock up.2 bucket_name resized_key)
        | none => (PResult.ok (Outcome.success object_key resized_key), up.2)

/-- process_s3_record: skip non-image keys, otherwise run the
post-eligibility body. -/
def process_s3_record (ctx : Ctx) (s : Store) (bucket_name object_key : Str) :
    PResult × Store :=
  if is_image_file object_key then process_eligible_record ctx s bucket_name object_key
  else (PResult.ok (Outcome.skipped ( "Not an image file".toList) object_key), s)

/-- Configuration: the bounding box passed to the codec. -/
def SIZE : Nat × Nat := (1280, 1280)

/-- Modelled from the spec: the external codec (Pillow) is a
collaborator outside this repository; this is the round_aspect helper
of the bounding-box dimension computation of its Image.thumbnail
method, which the source invokes with SIZE, rendered in exact rational
arithmetic.  Picks floor or ceil of the exact aspect-preserving value,
whichever has the smaller key, clamped below at 1. -/
def round_aspect (number : ℚ) (key : ℤ → ℚ) : ℤ :=
  max (if key ⌊number⌋ ≤ key ⌈number⌉ then ⌊number⌋ else ⌈number⌉) 1

/-- Modelled from the spec: the thumbnail size computation of the
external codec.  If the image already fits the box, dimensions are
unchanged; otherwise the dimension that would overflow is derived from
the aspect ratio.  Each fraction of the float algorithm (aspect = w/h,
x/y, y*aspect = y*w/h, x/aspect = x*h/w, and the rounding keys
aspect - n/y and aspect - x/n) is written as one exact quotient via
Rat.divInt. -/
def thumbnailSize (width height : Nat) : ℤ × ℤ :=
  let x : ℤ := (SIZE.1 : ℤ)
  let y : ℤ := (SIZE.2 : ℤ)
  let w : ℤ := (width : ℤ)
  let h : ℤ := (height : ℤ)
  if x ≥ w ∧ y ≥ h then (w, h)
  else if Rat.divInt x y ≥ Rat.divInt w h then
    (round_aspect (Rat.divInt (y * w) h) (fun n => |Rat.divInt (w * y - n * h) (h * y)|), y)
  else
    (x, round_aspect (Rat.divInt (x * h) w) (fun n => |Rat.divInt (w * n - x * h) (h * n)|))

/-- A decoded source image, reduced to its dimensions (pixel data is
owned by the external codec). -/
structure SourceImage where
  width : Nat
  height : Nat
deriving DecidableEq

/-- The encoded output of generate_thumbnail: dimensions after the
thumbnail call, plus the encoding format and quality passed to save. -/
structure EncodedImage where
  width : ℤ
  height : ℤ
  format : Str
  quality : Nat
deriving DecidableEq

/-- generate_thumbnail: thumbnail within SIZE then save as JPEG at
quality 85 (the color-mode normalization touches pixels only and is
absorbed into the codec abstraction). -/
def generate_thumbnail (img : SourceImage) : EncodedImage :=
  let wh := thumbnailSize img.width img.height
  { width := wh.1, height := wh.2, format := "JPEG".toList, quality := 85 }

/-- One record of the trigger batch: a well-formed record carries the
bucket and key; a malformed one makes the dict lookups in
process_s3_record raise KeyError, while the handler recovers the key
for its failure entry when present (else the literal unknown). -/
inductive RecordInput where
  | valid (bucket : Str) (key : Str)
  | malformed (key : Option Str)
deriving DecidableEq

/-- The key the handler associates with a record, as read by
record.get s3 / object / key with default unknown. -/
def recordKey : RecordInput → Str
  | RecordInput.valid _ k => k
  | RecordInput.malformed ko => ko.getD ( "unknown".toList)

/-- One entry of the aggregate report: a returned outcome, or the
failure entry the handler builds from a caught exception. -/
inductive ItemResult where
  | ok (o : Outcome)
  | failed (msg : Str) (key : Str)
deriving DecidableEq

/-- The key field carried by a report entry. -/
def itemKey : ItemResult → Str
  | ItemResult.ok (Outcome.skipped _ k) => k
  | ItemResult.ok (Outcome.success k _) => k
  | ItemResult.failed _ k => k

/-- True exactly for failure entries of the report. -/
def isFailedB : ItemResult → Bool
  | ItemResult.failed _ _ => true
  | _ => false

/-- True exactly for malformed input records. -/
def isMalformedB : RecordInput → Bool
  | RecordInput.malformed _ => true
  | _ => false

/-- The failure message the handler formats for a record. -/
def failMsg (key e : Str) : Str :=
  "Failed to process record ".toList ++ key ++ ": ".toList ++ e

/-- The loop body of lambda_handler for one record: process it,
converting a raised exception into a failure entry keyed by the
the key of the record; a malformed record raises KeyError while parsing. -/
def process_item (ctx : Ctx) (s : Store) : RecordInput → ItemResult × Store
  | RecordInput.valid b k =>
    match process_s3_record ctx s b k with
    | (PResult.ok o, s2) => (ItemResult.ok o, s2)
    | (PResult.error e, s2) => (ItemResult.failed (failMsg k e) k, s2)
  | RecordInput.malformed ko =>
    (ItemResult.failed (failMsg (ko.getD ( "unknown".toList)) ( "KeyError".toList))
       (ko.getD ( "unknown".toList)), s)

/-- The lambda_handler loop over the record list, threading the store
state and collecting one report entry per record in order. -/
def run_records (ctx : Ctx) (s : Store) : List RecordInput → List ItemResult × Store
  | [] => ([], s)
  | r :: rs =>
    let first := process_item ctx s r
    let rest := run_records ctx first.2 rs
    (first.1 :: rest.1, rest.2)

/-- The aggregate response of lambda_handler: HTTP-style status code
and the per-record report. -/
structure LambdaResponse where
  statusCode : Nat
  results : List ItemResult
deriving DecidableEq

/-- lambda_handler: processes every record of the batch under isolated
error handling and returns status 200 with the per-record report. -/
def lambda_handler (ctx : Ctx) (s : Store) (records : List RecordInput) :
    LambdaResponse × Store :=
  let run := run_records ctx s records
  ({ statusCode := 200, results := run.1 }, run.2)

/-- True when the store holds an object at (b, k) whose tag set maps
the processed tag to true: the completion condition the Completion
Oracle is meant to detect. -/
def completedObjAt (s : Store) (b k : Str) : Bool :=
  match storeGet s b k with
  | some o => if dictGet o.tags PROCESSED_TAG = some ( "true".toList) then true else false
  | none => false

/-- True for the outcomes of the post-eligibility coordinator on which
a lock was certainly acquired: a success, or a raised error (errors
can only arise after acquisition). -/
def isErrorOrSuccess : PResult → Bool
  | PResult.error _ => true
  | PResult.ok (Outcome.success _ _) => true
  | PResult.ok (Outcome.skipped _ _) => false

/-- A fault assignment with no injected failures. -/
def noFaults : Faults := ⟨false, false, false, false, false, false, false⟩

/-- A fault assignment where head_object on the lock key raises a
transient (non-NoSuchKey) error. -/
def headErrFaults : Faults := ⟨true, false, false, false, false, false, false⟩

/-- A concrete fault-free context for witnesses. -/
def ctx0 : Ctx :=
  ⟨ "token-1".toList, "2026-01-01T00:00:00".toList, 1000, noFaults⟩

/-- A concrete context whose lock existence check raises. -/
def ctxHeadErr : Ctx :=
  ⟨ "token-1".toList, "2026-01-01T00:00:00".toList, 1000, headErrFaults⟩

/-- A concrete bucket name for witnesses. -/
def bEx : Str := "bucket".toList

/-- A concrete eligible-extension input key for witnesses. -/
def keyEx : Str := "photo.jpg".toList

/-- A concrete input object for witnesses. -/
def inObj : Obj := ⟨ "input-bytes".toList, [], []⟩

/-- A concrete completed output object for witnesses. -/
def outObjDone : Obj := ⟨ "resized-bytes".toList, [(PROCESSED_TAG, "true".toList)], []⟩

/-- A store holding only the input object. -/
def sInput : Store := [((bEx, keyEx), inObj)]

/-- A store holding only a completed output object for keyEx. -/
def sDone : Store := [((bEx, generate_resized_key keyEx), outObjDone)]

/-! Lemmas about the path helpers. -/

theorem dropDir_eq_self {l : Str} (h : ∀ c ∈ l, c ≠ '/') : dropDir l = l := by
  induction l with
  | nil => rfl
  | cons c cs ih =>
    rw [dropDir, if_neg (h c (List.mem_cons_self c cs))]
    rw [ih fun d hd => h d (List.mem_cons_of_mem c hd)]

theorem dropKeep_eq_nil {l : Str} (h : ∀ c ∈ l, c ≠ '/') : dropKeep l = [] := by
  induction l with
  | nil => rfl
  | cons c cs ih =>
    rw [dropKeep, if_neg (h c (List.mem_cons_self c cs))]
    exact ih fun d hd => h d (List.mem_cons_of_mem c hd)

theorem dropDir_append_dropKeep (l : Str) : dropDir l ++ dropKeep l = l := by
  induction l with
  | nil => rfl
  | cons c cs ih =>
    by_cases hc : c = '/'
    · rw [dropDir, dropKeep, if_pos hc, if_pos hc, List.nil_append]
    · rw [dropDir, dropKeep, if_neg hc, if_neg hc, List.cons_append, ih]

theorem slash_not_mem_dropDir (l : Str) : '/' ∉ dropDir l := by
  induction l with
  | nil => simp [dropDir]
  | cons c cs ih =>
    by_cases hc : c = '/'
    · simp [dropDir, if_pos hc]
    · simp only [dropDir, if_neg hc, List.mem_cons]
      rintro (h | h)
      · exact hc h.symm
      · exact ih h

theorem basename_eq_self {k : Str} (h : '/' ∉ k) : basename k = k := by
  unfold basename
  rw [dropDir_eq_self, List.reverse_reverse]
  intro c hc he
  exact h (by rw [← he]; exact List.mem_reverse.mp hc)

theorem dirname_eq_nil {k : Str} (h : '/' ∉ k) : dirname k = [] := by
  unfold dirname
  rw [dropKeep_eq_nil, List.reverse_nil]
  intro c hc he
  exact h (by rw [← he]; exact List.mem_reverse.mp hc)

theorem slash_not_mem_basename (p : Str) : '/' ∉ basename p := by
  unfold basename
  intro h
  exact slash_not_mem_dropDir p.reverse (List.mem_reverse.mp h)

theorem dirname_append_basename (p : Str) : dirname p ++ basename p = p := by
  unfold dirname basename
  rw [← List.reverse_append, dropDir_append_dropKeep, List.reverse_reverse]

theorem basename_idem (p : Str) : basename (basename p) = basename p :=
  basename_eq_self (slash_not_mem_basename p)

/-! Lemmas about lastDotSplit and splitext. -/

theorem lastDotSplit_eq_none {f : Str} (h : '.' ∉ f) : lastDotSplit f = none := by
  induction f with
  | nil => rfl
  | cons c cs ih =>
    rw [lastDotSplit, ih fun hm => h (List.mem_cons_of_mem c hm)]
    rw [if_neg fun hc => h (by rw [← hc]; exact List.mem_cons_self c cs)]

theorem not_mem_of_lastDotSplit_none {f : Str} (h : lastDotSplit f = none) : '.' ∉ f := by
  induction f with
  | nil => simp
  | cons c cs ih =>
    rw [lastDotSplit] at h
    cases hrec : lastDotSplit cs with
    | some pair => rw [hrec] at h; exact absurd h (by simp)
    | none =>
      rw [hrec] at h
      by_cases hc : c = '.'
      · rw [if_pos hc] at h; exact absurd h (by simp)
      · rw [if_neg hc] at h
        simp only [List.mem_cons]
        rintro (he | he)
        · exact hc he.symm
        · exact ih hrec he

theorem lastDotSplit_spec {f b e : Str} (h : lastDotSplit f = some (b, e)) :
    ∃ t, e = '.' :: t ∧ '.' ∉ t ∧ f = b ++ '.' :: t := by
  induction f generalizing b e with
  | nil => exact absurd h (by simp [lastDotSplit])
  | cons c cs ih =>
    rw [lastDotSplit] at h
    cases hrec : lastDotSplit cs with
    | some pair =>
      obtain ⟨b2, e2⟩ := pair
      rw [hrec] at h
      simp only [Option.some.injEq, Prod.mk.injEq] at h
      obtain ⟨hb, he⟩ := h
      obtain ⟨t, het, htd, hcs⟩ := ih hrec
      refine ⟨t, by rw [← he, het], htd, ?_⟩
      rw [← hb, hcs, List.cons_append]
    | none =>
      rw [hrec] at h
      by_cases hc : c = '.'
      · rw [if_pos hc] at h
        simp only [Option.some.injEq, Prod.mk.injEq] at h
        obtain ⟨hb, he⟩ := h
        subst hc
        refine ⟨cs, he.symm, not_mem_of_lastDotSplit_none hrec, ?_⟩
        rw [← hb, List.nil_append]
      · rw [if_neg hc] at h
        exact absurd h (by simp)

theorem lastDotSplit_append {b t : Str} (ht : '.' ∉ t) :
    lastDotSplit (b ++ '.' :: t) = some (b, '.' :: t) := by
  induction b with
  | nil =>
    rw [List.nil_append, lastDotSplit, lastDotSplit_eq_none ht, if_pos rfl]
  | cons c cs ih =>
    rw [List.cons_append, lastDotSplit, ih]

theorem splitext_no_slash {f : Str} (h : '/' ∉ f) :
    splitext f =
      match lastDotSplit f with
      | none => (f, [])
      | some (b, e) => if b.all (fun c => c == '.') then (f, []) else (b, e) := by
  unfold splitext
  rw [basename_eq_self h, dirname_eq_nil h]
  cases lastDotSplit f with
  | none => rfl
  | some pair =>
    obtain ⟨b, e⟩ := pair
    by_cases hall : b.all (fun c => c == '.')
    · simp [hall]
    · simp [hall]

theorem splitext_append (p : Str) : (splitext p).1 ++ (splitext p).2 = p := by
  unfold splitext
  cases hls : lastDotSplit (basename p) with
  | none => simp
  | some pair =>
    obtain ⟨b, e⟩ := pair
    by_cases hall : b.all (fun c => c == '.')
    · simp [hall]
    · simp only [hall, if_false, Bool.false_eq_true]
      obtain ⟨t, het, htd, hbase⟩ := lastDotSplit_spec hls
      rw [List.append_assoc, het, ← hbase, dirname_append_basename]

theorem splitext_snd_basename (p : Str) : (splitext p).2 = (splitext (basename p)).2 := by
  unfold splitext
  rw [basename_idem]
  cases lastDotSplit (basename p) with
  | none => rfl
  | some pair =>
    obtain ⟨b, e⟩ := pair
    by_cases hall : b.all (fun c => c == '.')
    · simp [hall]
    · simp [hall]

theorem dot_not_mem_resized : '.' ∉ "_resized".toList := by decide

theorem slash_not_mem_resized : '/' ∉ "_resized".toList := by decide

/-- Recombination: inserting the _resized marker between the stem and
the extension of a slash-free name and splitting again returns the
extended stem and the same extension. -/
theorem splitext_resized {f : Str} (h : '/' ∉ f) :
    splitext ((splitext f).1 ++ "_resized".toList ++ (splitext f).2)
      = ((splitext f).1 ++ "_resized".toList, (splitext f).2) := by
  cases hls : lastDotSplit f with
  | none =>
    have hf : splitext f = (f, []) := by rw [splitext_no_slash h, hls]
    rw [hf]
    simp only [List.append_nil]
    have hdot : '.' ∉ f ++ "_resized".toList := by
      intro hm
      rcases List.mem_append.mp hm with hm | hm
      · exact not_mem_of_lastDotSplit_none hls hm
      · exact dot_not_mem_resized hm
    have hsl : '/' ∉ f ++ "_resized".toList := by
      intro hm
      rcases List.mem_append.mp hm with hm | hm
      · exact h hm
      · exact slash_not_mem_resized hm
    rw [splitext_no_slash hsl, lastDotSplit_eq_none hdot]
  | some pair =>
    obtain ⟨b, e⟩ := pair
    obtain ⟨t, het, htd, hfe⟩ := lastDotSplit_spec hls
    have hbm : ∀ c ∈ b, c ∈ f := fun c hc => by rw [hfe]; exact List.mem_append_left _ hc
    have htm : ∀ c ∈ t, c ∈ f := fun c hc => by
      rw [hfe]; exact List.mem_append_right _ (List.mem_cons_of_mem _ hc)
    have hdotf : '.' ∈ f := by rw [hfe]; exact List.mem_append_right _ (List.mem_cons_self _ _)
    by_cases hall : b.all (fun c => c == '.')
    · have hf : splitext f = (f, []) := by rw [splitext_no_slash h, hls]; simp [hall]
      rw [hf]
      simp only [List.append_nil]
      have harr : f ++ "_resized".toList = b ++ '.' :: (t ++ "_resized".toList) := by
        rw [hfe, List.append_assoc, List.cons_append]
      have hsl : '/' ∉ f ++ "_resized".toList := by
        intro hm
        rcases List.mem_append.mp hm with hm | hm
        · exact h hm
        · exact slash_not_mem_resized hm
      have hdt : '.' ∉ t ++ "_resized".toList := by
        intro hm
        rcases List.mem_append.mp hm with hm | hm
        · exact htd hm
        · exact dot_not_mem_resized hm
      rw [splitext_no_slash hsl, harr, lastDotSplit_append hdt]
      simp [hall, harr]
    · have hf : splitext f = (b, e) := by rw [splitext_no_slash h, hls]; simp [hall]
      rw [hf]
      have hsl : '/' ∉ (b ++ "_resized".toList) ++ e := by
        intro hm
        rcases List.mem_append.mp hm with hm | hm
        · rcases List.mem_append.mp hm with hm | hm
          · exact h (hbm _ hm)
          · exact slash_not_mem_resized hm
        · rw [het] at hm
          rcases List.mem_cons.mp hm with hm | hm
          · exact h (by rw [hm]; exact hdotf)
          · exact h (htm _ hm)
      have hstep : splitext ((b ++ "_resized".toList) ++ e) = (b ++ "_resized".toList, e) := by
        rw [splitext_no_slash hsl, het, lastDotSplit_append htd]
        have hallr : (b ++ "_resized".toList).all (fun c => c == '.') = false := by
          rw [List.all_append]
          have : ( "_resized".toList).all (fun c => c == '.') = false := by decide
          rw [this, Bool.and_false]
        simp [hallr]
      exact hstep

/-! Lemmas about the worker functions. -/

theorem is_image_file_eq_false (key : Str) : is_image_file key = false := by
  unfold is_image_file RESIZED_PREFIX
  split
  · rfl
  · rw [if_pos]
    show List.isPrefixOf [] key = true
    cases key with
    | nil => rfl
    | cons c cs => rfl

theorem storeGet_storeDelete (s : Store) (b k : Str) :
    storeGet (storeDelete s b k) b k = none := by
  induction s with
  | nil => rfl
  | cons e rest ih =>
    obtain ⟨bk, o⟩ := e
    by_cases hm : bk.1 = b ∧ bk.2 = k
    · rw [storeDelete, if_pos hm]
      exact ih
    · rw [storeDelete, if_neg hm, storeGet, if_neg hm]
      exact ih

theorem process_s3_record_skips (ctx : Ctx) (s : Store) (b k : Str) :
    process_s3_record ctx s b k =
      (PResult.ok (Outcome.skipped ( "Not an image file".toList) k), s) := by
  unfold process_s3_record
  rw [is_image_file_eq_false, if_neg]
  exact Bool.false_ne_true

/-! Claim theorems. -/

/-- C1: the claim says is_image_file accepts every non-empty key with
an allow-listed extension that is not under the output prefix.  The
code sets RESIZED_PREFIX to the empty string, and every key starts
with the empty prefix, so is_image_file returns false for every key,
including the allow-listed key the repository test uploads. -/
theorem c1_is_image_file_rejects_every_key :
    is_image_file ( "test-images/test-image.jpg".toList) = false ∧
    ∀ key : Str, is_image_file key = false :=
  ⟨is_image_file_eq_false _, is_image_file_eq_false⟩

/-- C4: for every input whose output object already carries
processed=true, a full run of process_s3_record yields a skip outcome
and returns the store unchanged: no object is created or modified.
(With the RESIZED_PREFIX bug of C1 the run skips at the eligibility
gate, before any store access.) -/
theorem c4_completed_input_run_skips_without_store_write
    (ctx : Ctx) (s : Store) (b k : Str)
    (_h : completedObjAt s b (generate_resized_key k) = true) :
    process_s3_record ctx s b k =
      (PResult.ok (Outcome.skipped ( "Not an image file".toList) k), s) :=
  process_s3_record_skips ctx s b k

/-- C4 witness at a concrete completed store. -/
theorem c4_witness :
    completedObjAt sDone bEx (generate_resized_key keyEx) = true ∧
    process_s3_record ctx0 sDone bEx keyEx =
      (PResult.ok (Outcome.skipped ( "Not an image file".toList) keyEx), sDone) :=
  ⟨by decide, c4_completed_input_run_skips_without_store_write ctx0 sDone bEx keyEx (by decide)⟩

/-- C5: is_resized_image_completed returns true exactly when no read
error is injected, the output object exists, and its tag set maps
processed to true; absence and every injected read error yield false
(the function is total, never raising). -/
theorem c5_is_resized_image_completed_characterization
    (ctx : Ctx) (s : Store) (b k : Str) :
    is_resized_image_completed ctx s b k =
      (!ctx.faults.head_out_err && !ctx.faults.tag_err && completedObjAt s b k) := by
  unfold is_resized_image_completed completedObjAt
  cases hh : ctx.faults.head_out_err <;>
  cases ht : ctx.faults.tag_err <;>
  cases hg : storeGet s b k <;>
  simp [hh, ht, hg]

/-- C3: with no injected store faults, try_acquire_processing_lock
denies (False, store unchanged) when a lock object exists at the
derived lock key, and otherwise writes a lock object carrying the
fresh token in its body and lock-id metadata together with created-at
and advisory expires-at metadata, returning True. -/
theorem c3_try_acquire_denies_or_writes_lock
    (ctx : Ctx) (s : Store) (b rk : Str)
    (h1 : ctx.faults.head_lock_err = false) (h2 : ctx.faults.put_lock_err = false) :
    ((storeGet s b (lock_key_of rk)).isSome = true →
      try_acquire_processing_lock ctx s b rk = (false, s)) ∧
    (storeGet s b (lock_key_of rk) = none →
      try_acquire_processing_lock ctx s b rk =
        (true, storePut s b (lock_key_of rk) (lock_object ctx)) ∧
      (lock_object ctx).body = ctx.lock_id ∧
      dictGet (lock_object ctx).metadata ( "lock-id".toList) = some ctx.lock_id ∧
      dictGet (lock_object ctx).metadata ( "created-at".toList) = some ctx.created_at ∧
      dictGet (lock_object ctx).metadata ( "expires-at".toList) =
        some ((toString (ctx.now + 300)).toList)) := by
  constructor
  · intro hs
    unfold try_acquire_processing_lock
    rw [h1, if_neg Bool.false_ne_true, if_pos hs]
  · intro hn
    refine ⟨?_, rfl, by simp [lock_object, dictGet], by simp [lock_object, dictGet],
      by simp [lock_object, dictGet]⟩
    unfold try_acquire_processing_lock
    rw [h1, if_neg Bool.false_ne_true, hn]
    rw [h2, if_neg Bool.false_ne_true]
    rfl

/-- C3 witness: on the empty store the lock is acquired and the lock
object carries the token and the metadata. -/
theorem c3_witness :
    storeGet [] bEx (lock_key_of ( "photo_resized.jpg".toList)) = none ∧
    try_acquire_processing_lock ctx0 [] bEx ( "photo_resized.jpg".toList) =
      (true, storePut [] bEx (lock_key_of ( "photo_resized.jpg".toList)) (lock_object ctx0)) ∧
    (lock_object ctx0).body = ctx0.lock_id ∧
    dictGet (lock_object ctx0).metadata ( "lock-id".toList) = some ctx0.lock_id ∧
    dictGet (lock_object ctx0).metadata ( "created-at".toList) = some ctx0.created_at ∧
    dictGet (lock_object ctx0).metadata ( "expires-at".toList) =
      some ((toString (ctx0.now + 300)).toList) :=
  ⟨rfl, (c3_try_acquire_denies_or_writes_lock ctx0 [] bEx ( "photo_resized.jpg".toList)
    rfl rfl).2 rfl⟩

/-- C9: when the existence check or the lock write raises a store
error, try_acquire_processing_lock returns False with the store
unchanged instead of propagating, and the coordinator turns the denial
into the skip outcome used for lock contention, never a failure. -/
theorem c9_store_error_during_acquisition_becomes_skip
    (ctx : Ctx) (s : Store) (b k : Str)
    (h : ctx.faults.head_lock_err = true ∨ ctx.faults.put_lock_err = true) :
    try_acquire_processing_lock ctx s b (generate_resized_key k) = (false, s) ∧
    process_eligible_record ctx s b k =
      (PResult.ok (Outcome.skipped ( "Already being processed or completed".toList) k), s) := by
  have hacq : try_acquire_processing_lock ctx s b (generate_resized_key k) = (false, s) := by
    unfold try_acquire_processing_lock
    rcases h with h | h
    · rw [h, if_pos rfl]
    · cases hh : ctx.faults.head_lock_err with
      | true => rw [if_pos rfl]
      | false =>
        rw [if_neg Bool.false_ne_true]
        cases hs : (storeGet s b (lock_key_of (generate_resized_key k))).isSome with
        | true => rw [if_pos rfl]
        | false =>
          rw [if_neg Bool.false_ne_true, h, if_pos rfl]
  refine ⟨hacq, ?_⟩
  simp [process_eligible_record, hacq]

/-- C9 witness: a raising existence check on the empty store yields
denial and the contention skip. -/
theorem c9_witness :
    try_acquire_processing_lock ctxHeadErr [] bEx (generate_resized_key keyEx) = (false, []) ∧
    process_eligible_record ctxHeadErr [] bEx keyEx =
      (PResult.ok (Outcome.skipped ( "Already being processed or completed".toList) keyEx),
        []) :=
  c9_store_error_during_acquisition_becomes_skip ctxHeadErr [] bEx keyEx (Or.inl rfl)

/-- C2 (amended): after the lock was acquired, the coordinator deletes
the lock object on the success path and on every raising path
(download, codec and upload failures), so the final store holds no
lock object there.  The already-completed skip path is excluded: it
returns while the lock object is still in the store (see the
counterexample). -/
theorem c2_lock_released_on_success_and_raising_paths
    (ctx : Ctx) (s : Store) (b k : Str)
    (h : isErrorOrSuccess (process_eligible_record ctx s b k).1 = true) :
    storeGet (process_eligible_record ctx s b k).2 b
      (lock_key_of (generate_resized_key k)) = none := by
  revert h
  simp only [process_eligible_record]
  by_cases h1 : (try_acquire_processing_lock ctx s b (generate_resized_key k)).1 = false
  · rw [if_pos h1]
    intro h
    exact absurd h (by simp [isErrorOrSuccess])
  · rw [if_neg h1]
    by_cases h2 : is_resized_image_completed ctx
        (try_acquire_processing_lock ctx s b (generate_resized_key k)).2 b
        (generate_resized_key k) = true
    · rw [if_pos h2]
      intro h
      exact absurd h (by simp [isErrorOrSuccess])
    · rw [if_neg h2]
      cases hg : storeGet (try_acquire_processing_lock ctx s b (generate_resized_key k)).2 b k with
      | none =>
        intro _
        simp [release_processing_lock, storeGet_storeDelete]
      | some o =>
        by_cases hd : ctx.faults.download_err = true
        · rw [if_pos hd]
          intro _
          simp [release_processing_lock, storeGet_storeDelete]
        · rw [if_neg hd]
          by_cases hc : ctx.faults.codec_err = true
          · rw [if_pos hc]
            intro _
            simp [release_processing_lock, storeGet_storeDelete]
          · rw [if_neg hc]
            cases hu : (upload_resized_image_atomically ctx
                (try_acquire_processing_lock ctx s b (generate_resized_key k)).2 b
                (generate_resized_key k) k).1 with
            | some e =>
              intro _
              simp [release_processing_lock, storeGet_storeDelete]
            | none =>
              intro _
              unfold upload_resized_image_atomically at hu ⊢
              by_cases hue : ctx.faults.upload_err = true
              · rw [if_pos hue] at hu
                exact absurd hu (by simp)
              · rw [if_neg hue]
                simp [release_processing_lock, storeGet_storeDelete]

/-- C2 counterexample: on a store where the output object is already
completed and no lock exists, the coordinator acquires the lock (it
was absent before the run), skips with the already-completed reason,
and exits with the lock object still present in the store. -/
theorem c2_counterexample_completed_skip_retains_lock :
    storeGet sDone bEx (lock_key_of (generate_resized_key keyEx)) = none ∧
    (process_eligible_record ctx0 sDone bEx keyEx).1 =
      PResult.ok (Outcome.skipped ( "Already completed".toList) keyEx) ∧
    (storeGet (process_eligible_record ctx0 sDone bEx keyEx).2 bEx
      (lock_key_of (generate_resized_key keyEx))).isSome = true := by
  decide

/-- C2 witness: a fault-free run over a store holding the input object
succeeds, and the lock object is absent afterwards. -/
theorem c2_witness :
    isErrorOrSuccess (process_eligible_record ctx0 sInput bEx keyEx).1 = true ∧
    storeGet (process_eligible_record ctx0 sInput bEx keyEx).2 bEx
      (lock_key_of (generate_resized_key keyEx)) = none :=
  ⟨by decide,
   c2_lock_released_on_success_and_raising_paths ctx0 sInput bEx keyEx (by decide)⟩

theorem process_item_key (ctx : Ctx) (s : Store) (r : RecordInput) :
    itemKey (process_item ctx s r).1 = recordKey r := by
  cases r with
  | valid b k =>
    rw [process_item, process_s3_record_skips]
    rfl
  | malformed ko => rfl

theorem process_item_malformed_failed (ctx : Ctx) (s : Store) (r : RecordInput)
    (h : isMalformedB r = true) : isFailedB (process_item ctx s r).1 = true := by
  cases r with
  | valid b k => exact absurd h (by simp [isMalformedB])
  | malformed ko => rfl

theorem run_records_length (ctx : Ctx) (s : Store) (rs : List RecordInput) :
    (run_records ctx s rs).1.length = rs.length := by
  induction rs generalizing s with
  | nil => rfl
  | cons r rest ih =>
    rw [run_records]
    simp only [List.length_cons]
    rw [ih]

theorem run_records_keys (ctx : Ctx) (s : Store) (rs : List RecordInput) :
    (run_records ctx s rs).1.map itemKey = rs.map recordKey := by
  induction rs generalizing s with
  | nil => rfl
  | cons r rest ih =>
    rw [run_records]
    simp only [List.map_cons]
    rw [ih, process_item_key]

theorem run_records_malformed (ctx : Ctx) (s : Store) (rs : List RecordInput) :
    (rs.zip (run_records ctx s rs).1).all
      (fun p => !(isMalformedB p.1) || isFailedB p.2) = true := by
  induction rs generalizing s with
  | nil => rfl
  | cons r rest ih =>
    rw [run_records]
    simp only [List.zip_cons_cons, List.all_cons, Bool.and_eq_true]
    constructor
    · cases hm : isMalformedB r with
      | false => rfl
      | true =>
        rw [process_item_malformed_failed ctx s r hm]
        simp
    · exact ih _

/-- C6: lambda_handler returns status 200 and one report entry per
record, in order: the report has the batch length, the entry keys
match the record keys position by position, and a record whose
processing raises (the malformed ones here) gets a failure entry while
every other record still gets its own entry. -/
theorem c6_lambda_handler_reports_every_record
    (ctx : Ctx) (s : Store) (records : List RecordInput) :
    (lambda_handler ctx s records).1.statusCode = 200 ∧
    (lambda_handler ctx s records).1.results.length = records.length ∧
    (lambda_handler ctx s records).1.results.map itemKey = records.map recordKey ∧
    (records.zip (lambda_handler ctx s records).1.results).all
      (fun p => !(isMalformedB p.1) || isFailedB p.2) = true :=
  ⟨rfl, run_records_length ctx s records, run_records_keys ctx s records,
    run_records_malformed ctx s records⟩

/-- C6 witness: a concrete batch with a failing (malformed) record
between two valid ones yields three entries, keyed in order, with
exactly the malformed one failed. -/
theorem c6_witness :
    (lambda_handler ctx0 sInput
      [RecordInput.valid bEx keyEx, RecordInput.malformed none,
       RecordInput.valid bEx ( "b.png".toList)]).1.results.map itemKey =
      [keyEx, "unknown".toList, "b.png".toList] := by
  have h := (c6_lambda_handler_reports_every_record ctx0 sInput
    [RecordInput.valid bEx keyEx, RecordInput.malformed none,
     RecordInput.valid bEx ( "b.png".toList)]).2.2.1
  rw [h]
  decide

/-- C7 counterexample: two distinct keys, both with allow-listed image
extensions, that differ only in their directory map to the same
resized key, so the derivation is not injective and an output key does
not determine its input key.  (Under the literal code no key at all is
eligible, since is_image_file is constantly false; these two keys are
eligible in the sense the spec intends, i.e. by extension.) -/
theorem c7_counterexample_directory_collision :
    generate_resized_key ( "a/photo.jpg".toList) = generate_resized_key ( "photo.jpg".toList) ∧
    ( "a/photo.jpg".toList ≠ ( "photo.jpg".toList : Str)) ∧
    SUPPORTED_FORMATS.contains
      (splitext (( "a/photo.jpg".toList).map Char.toLower)).2 = true ∧
    SUPPORTED_FORMATS.contains
      (splitext (( "photo.jpg".toList).map Char.toLower)).2 = true := by
  decide

/-- C7 (amended): generate_resized_key is injective on keys without a
directory separator; equivalently the derivation is injective at the
basename level, and distinct keys sharing a basename collide. -/
theorem c7_generate_resized_key_injective_on_slashfree
    (k1 k2 : Str) (h1 : '/' ∉ k1) (h2 : '/' ∉ k2) (hne : k1 ≠ k2) :
    generate_resized_key k1 ≠ generate_resized_key k2 := by
  intro heq
  simp only [generate_resized_key, RESIZED_PREFIX, List.nil_append,
    basename_eq_self h1, basename_eq_self h2] at heq
  have h3 : splitext ((splitext k1).1 ++ "_resized".toList ++ (splitext k1).2) =
      splitext ((splitext k2).1 ++ "_resized".toList ++ (splitext k2).2) := by
    rw [heq]
  rw [splitext_resized h1, splitext_resized h2, Prod.mk.injEq] at h3
  obtain ⟨hn, he⟩ := h3
  have hn2 : (splitext k1).1 = (splitext k2).1 := by
    have := congrArg List.reverse hn
    simp only [List.reverse_append] at this
    have := List.append_cancel_left this
    exact (List.reverse_injective this)
  exact hne (by rw [← splitext_append k1, ← splitext_append k2, hn2, he])

/-- C7 witness: slash-free distinct keys derive distinct output keys. -/
theorem c7_witness :
    ('/' ∉ ( "a.jpg".toList : Str)) ∧
    generate_resized_key ( "a.jpg".toList) ≠ generate_resized_key ( "b.jpg".toList) :=
  ⟨by decide,
   c7_generate_resized_key_injective_on_slashfree ( "a.jpg".toList) ( "b.jpg".toList)
     (by decide) (by decide) (by decide)⟩

/-- C10: the derived output key carries the same extension as the
input key (the extension of generate_resized_key of k equals the
extension of k), while the bytes generate_thumbnail publishes are
always JPEG-encoded at quality 85, whatever the input format. -/
theorem c10_extension_preserved_but_bytes_jpeg :
    (∀ k : Str, (splitext (generate_resized_key k)).2 = (splitext k).2) ∧
    (∀ img : SourceImage,
      (generate_thumbnail img).format = "JPEG".toList ∧ (generate_thumbnail img).quality = 85) := by
  constructor
  · intro k
    have hb : '/' ∉ basename k := slash_not_mem_basename k
    simp only [generate_resized_key, RESIZED_PREFIX, List.nil_append]
    rw [splitext_resized hb, splitext_snd_basename k]
  · intro img
    exact ⟨rfl, rfl⟩

/-! Lemmas about the codec dimension computation. -/

theorem round_aspect_eq (q : ℚ) (key : ℤ → ℚ) :
    round_aspect q key = max ⌊q⌋ 1 ∨ round_aspect q key = max ⌈q⌉ 1 := by
  unfold round_aspect
  by_cases hk : key ⌊q⌋ ≤ key ⌈q⌉
  · exact Or.inl (by rw [if_pos hk])
  · exact Or.inr (by rw [if_neg hk])

theorem round_aspect_one_le (q : ℚ) (key : ℤ → ℚ) : 1 ≤ round_aspect q key :=
  le_max_right _ _

theorem round_aspect_le {q : ℚ} {c : ℤ} (key : ℤ → ℚ) (hc : 1 ≤ c) (hq : q ≤ (c : ℚ)) :
    round_aspect q key ≤ c := by
  rcases round_aspect_eq q key with h | h <;> rw [h]
  · refine max_le ?_ hc
    exact le_trans (Int.floor_le_floor hq) (le_of_eq (Int.floor_intCast c))
  · exact max_le (Int.ceil_le.mpr hq) hc

theorem round_aspect_near {q : ℚ} (key : ℤ → ℚ) (hq : 0 < q) :
    |(round_aspect q key : ℚ) - q| < 1 := by
  have hfloor : (⌊q⌋ : ℚ) ≤ q := Int.floor_le q
  have hfloor2 : q < ⌊q⌋ + 1 := Int.lt_floor_add_one q
  have hceil : q ≤ (⌈q⌉ : ℚ) := Int.le_ceil q
  have hceil2 : (⌈q⌉ : ℚ) < q + 1 := Int.ceil_lt_add_one q
  rcases round_aspect_eq q key with h | h <;> rw [h]
  · by_cases h1 : 1 ≤ ⌊q⌋
    · rw [max_eq_left h1, abs_lt]
      constructor <;> linarith
    · push_neg at h1
      rw [max_eq_right (le_of_lt h1)]
      have h0 : (⌊q⌋ : ℚ) ≤ 0 := by exact_mod_cast Int.lt_add_one_iff.mp h1
      rw [abs_lt]
      push_cast
      constructor <;> linarith
  · have h1 : 1 ≤ ⌈q⌉ := Int.ceil_pos.mpr hq
    rw [max_eq_left h1, abs_lt]
    constructor <;> linarith

/-- Shrink branch of the thumbnail computation, for an arbitrary
rounding key: when the source sides satisfy w at most h, the computed
side 1280*w/h rounded is between 1 and 1280 and matches the exact
aspect value within one unit after cross-multiplying by h. -/
theorem round_aspect_shrink (w h : Nat) (key : ℤ → ℚ) (hw : 1 ≤ w) (hh : 1 ≤ h)
    (hwh : w ≤ h) :
    round_aspect (1280 * (w : ℚ) / (h : ℚ)) key ≤ 1280 ∧
    1 ≤ round_aspect (1280 * (w : ℚ) / (h : ℚ)) key ∧
    |(round_aspect (1280 * (w : ℚ) / (h : ℚ)) key) * (h : ℤ) - 1280 * (w : ℤ)| < (h : ℤ) := by
  have hwQ : (0 : ℚ) < (w : ℚ) := by exact_mod_cast hw
  have hhQ : (0 : ℚ) < (h : ℚ) := by exact_mod_cast hh
  have hwhQ : (w : ℚ) ≤ (h : ℚ) := by exact_mod_cast hwh
  have hQpos : (0 : ℚ) < 1280 * (w : ℚ) / (h : ℚ) := by positivity
  have hQle : 1280 * (w : ℚ) / (h : ℚ) ≤ ((1280 : ℤ) : ℚ) := by
    push_cast
    rw [div_le_iff₀ hhQ]
    nlinarith
  have hle := round_aspect_le key (by norm_num : (1 : ℤ) ≤ 1280) hQle
  have hnear := round_aspect_near key hQpos
  refine ⟨hle, round_aspect_one_le _ _, ?_⟩
  set r : ℤ := round_aspect (1280 * (w : ℚ) / (h : ℚ)) key with hr
  have hkey : |(r : ℚ) * (h : ℚ) - 1280 * (w : ℚ)| < (h : ℚ) := by
    have heq : (r : ℚ) * (h : ℚ) - 1280 * (w : ℚ) =
        ((r : ℚ) - 1280 * (w : ℚ) / (h : ℚ)) * (h : ℚ) := by
      field_simp
    rw [heq, abs_mul, abs_of_pos hhQ]
    calc |(r : ℚ) - 1280 * (w : ℚ) / (h : ℚ)| * (h : ℚ)
        < 1 * (h : ℚ) := mul_lt_mul_of_pos_right hnear hhQ
      _ = (h : ℚ) := one_mul _
  exact_mod_cast hkey

set_option maxHeartbeats 800000

/-- C8: with positive source dimensions, the modelled codec resize
leaves a source fitting the box unchanged; when both dimensions exceed
the box, the longer output side equals 1280; neither output dimension
ever exceeds 1280 or drops below 1; and the output matches the source
aspect ratio within integer rounding (the cross product differs by
less than the longer source side). -/
theorem c8_thumbnail_dimension_bounds (w h : Nat) (hw : 1 ≤ w) (hh : 1 ≤ h) :
    ((w ≤ 1280 ∧ h ≤ 1280) → thumbnailSize w h = ((w : ℤ), (h : ℤ))) ∧
    ((1280 < w ∧ 1280 < h) →
      max (thumbnailSize w h).1 (thumbnailSize w h).2 = 1280) ∧
    (thumbnailSize w h).1 ≤ 1280 ∧ (thumbnailSize w h).2 ≤ 1280 ∧
    1 ≤ (thumbnailSize w h).1 ∧ 1 ≤ (thumbnailSize w h).2 ∧
    |(thumbnailSize w h).1 * (h : ℤ) - (thumbnailSize w h).2 * (w : ℤ)| <
      max (w : ℤ) (h : ℤ) := by
  have hwQ : (0 : ℚ) < (w : ℚ) := by exact_mod_cast hw
  have hhQ : (0 : ℚ) < (h : ℚ) := by exact_mod_cast hh
  simp only [thumbnailSize, SIZE, Nat.cast_ofNat]
  split_ifs with hfit hbr
  · refine ⟨fun _ => rfl, fun hbig => ?_, hfit.1, hfit.2,
      by show (1 : ℤ) ≤ (w : ℤ); exact_mod_cast hw,
      by show (1 : ℤ) ≤ (h : ℤ); exact_mod_cast hh, ?_⟩
    · exfalso
      have : w ≤ 1280 := by exact_mod_cast hfit.1
      omega
    · have : (w : ℤ) * (h : ℤ) - (h : ℤ) * (w : ℤ) = 0 := by ring
      rw [this, abs_zero]
      exact lt_max_of_lt_left (by exact_mod_cast hw)
  · -- landscape stays 1280 tall, width computed: aspect at most one
    have hwh : w ≤ h := by
      rw [Rat.divInt_eq_div, Rat.divInt_eq_div] at hbr
      push_cast at hbr
      norm_num at hbr
      have := (div_le_one hhQ).mp hbr
      exact_mod_cast this
    have hQdef : Rat.divInt (1280 * (w : ℤ)) ((h : ℤ)) = 1280 * (w : ℚ) / (h : ℚ) := by
      rw [Rat.divInt_eq_div]
      push_cast
      ring
    rw [hQdef]
    obtain ⟨hA, hB, hC⟩ := round_aspect_shrink w h
      (fun n => |Rat.divInt ((w : ℤ) * 1280 - n * (h : ℤ)) ((h : ℤ) * 1280)|) hw hh hwh
    refine ⟨fun hsmall => absurd ⟨by exact_mod_cast hsmall.1, by exact_mod_cast hsmall.2⟩ hfit,
      fun _ => max_eq_right hA, hA, le_refl _, hB, by norm_num, ?_⟩
    rw [max_eq_right (by exact_mod_cast hwh : (w : ℤ) ≤ (h : ℤ))]
    exact hC
  · -- portrait stays 1280 wide, height computed: aspect above one
    have hwh : h ≤ w := by
      rw [Rat.divInt_eq_div, Rat.divInt_eq_div] at hbr
      push_cast at hbr
      norm_num at hbr
      have h1 : (1 : ℚ) < (w : ℚ) / (h : ℚ) := hbr
      have := (one_lt_div hhQ).mp h1
      have := le_of_lt this
      exact_mod_cast this
    have hQdef : Rat.divInt (1280 * (h : ℤ)) ((w : ℤ)) = 1280 * (h : ℚ) / (w : ℚ) := by
      rw [Rat.divInt_eq_div]
      push_cast
      ring
    rw [hQdef]
    obtain ⟨hA, hB, hC⟩ := round_aspect_shrink h w
      (fun n => |Rat.divInt ((w : ℤ) * n - 1280 * (h : ℤ)) ((h : ℤ) * n)|) hh hw hwh
    refine ⟨fun hsmall => absurd ⟨by exact_mod_cast hsmall.1, by exact_mod_cast hsmall.2⟩ hfit,
      fun _ => max_eq_left hA, le_refl _, hA, by norm_num, hB, ?_⟩
    rw [max_eq_left (by exact_mod_cast hwh : (h : ℤ) ≤ (w : ℤ)), abs_sub_comm]
    exact hC

set_option maxHeartbeats 200000

/-- C8 witness: a 2000 by 1500 source, larger than the box in both
dimensions, comes out with longer side 1280. -/
theorem c8_witness :
    (1280 < 2000 ∧ 1280 < 1500) ∧
    max (thumbnailSize 2000 1500).1 (thumbnailSize 2000 1500).2 = 1280 :=
  ⟨by decide,
   (c8_thumbnail_dimension_bounds 2000 1500 (by decide) (by decide)).2.1
     ⟨by decide, by decide⟩⟩
